import Mathlib

/-!
# Verification of the Automata_Celular simulation core

Shallow embedding of the cellular-automaton core of the repository
(`src/models.py`, `src/celllab_mix_full.py`, `src/canvas.py`,
`src/ui_main.py`) and proofs of the specified properties.

A grid is modelled as a total function `Nat → Nat → ℤ` together with
explicit `rows`/`cols` bounds (numpy `int8` values fit in `ℤ`; the code
never overflows the alphabet {0,1,2}).  Random draws of
`np.random.random()` are modelled as oracle functions `Nat → Nat → ℚ`
giving, for each cell, the draw consumed by that cell's Bernoulli test;
a draw is a value in `[0,1)`.
-/

/-- A grid: cell values indexed by (row, column).  Shapes are carried
separately, mirroring `numpy` arrays whose `.shape` is metadata. -/
def Grid : Type := Nat → Nat → ℤ

/-- Build a grid from a list of rows (out-of-range cells read 0),
used only to write down concrete test grids. -/
def gridOfRows (l : List (List ℤ)) : Grid :=
  fun i j => (((l.getD i []).getD j 0))

namespace LifeModel

/-- Sum of the clamped 3×3 window around `(i, j)`, embedding
`np.sum(grid[max(0,i-1):min(rows,i+2), max(0,j-1):min(cols,j+2)])`
from `LifeModel.step` (src/models.py).  Nat subtraction `i - 1`
realises `max(0, i-1)`. -/
def windowSum (rows cols : Nat) (g : Grid) (i j : Nat) : ℤ :=
  ∑ a ∈ Finset.Ico (i - 1) (min rows (i + 2)),
    ∑ b ∈ Finset.Ico (j - 1) (min cols (j + 2)), g a b

/-- `total` of `LifeModel.step` (src/models.py): window sum minus the
centre cell. -/
def total (rows cols : Nat) (g : Grid) (i j : Nat) : ℤ :=
  windowSum rows cols g i j - g i j

/-- Embedding of `LifeModel.step` (src/models.py, bounded edges).
`new = grid.copy()` and only in-range cells are updated, so cells
outside the iteration domain keep the value of `grid`. -/
def step (rows cols : Nat) (g : Grid) : Grid := fun i j =>
  if i < rows ∧ j < cols then
    if g i j = 1 ∧ (total rows cols g i j < 2 ∨ 3 < total rows cols g i j) then 0
    else if g i j = 0 ∧ total rows cols g i j = 3 then 1
    else g i j
  else g i j

end LifeModel

/-- Two grids agree on every cell of an `rows × cols` domain. -/
def gridEqOn (rows cols : Nat) (g₁ g₂ : Grid) : Prop :=
  ∀ i < rows, ∀ j < cols, g₁ i j = g₂ i j

instance (rows cols : Nat) (g₁ g₂ : Grid) :
    Decidable (gridEqOn rows cols g₁ g₂) := by
  unfold gridEqOn; infer_instance

/-- Horizontal blinker (spec §8 scenario). -/
def blinkerH : Grid := gridOfRows [[0,0,0],[1,1,1],[0,0,0]]

/-- Vertical blinker (spec §8 scenario). -/
def blinkerV : Grid := gridOfRows [[0,1,0],[0,1,0],[0,1,0]]

/-- Constant draw oracle 0, for concrete witnesses. -/
def zeroDraw : Nat → Nat → ℚ := fun _ _ => 0

/-- Concrete 2×2 Fire grid: a BURNING cell, a TREE, two EMPTY cells. -/
def fireDemo : Grid := gridOfRows [[2,1],[0,0]]

namespace FireModel

/-- `np.any(neighbors == 2)` over the clamped 3×3 window of
`FireModel.step` (src/models.py).  The slice includes the centre cell
itself, exactly as `grid[max(0,i-1):min(rows,i+2), ...]` does. -/
def windowAnyFire (rows cols : Nat) (g : Grid) (i j : Nat) : Prop :=
  ∃ p ∈ Finset.Ico (i - 1) (min rows (i + 2)) ×ˢ
        Finset.Ico (j - 1) (min cols (j + 2)), g p.1 p.2 = 2

instance (rows cols : Nat) (g : Grid) (i j : Nat) :
    Decidable (windowAnyFire rows cols g i j) := by
  unfold windowAnyFire; infer_instance

/-- Embedding of `FireModel.step` (src/models.py).  `ul i j` / `ug i j`
are the `np.random.random()` draws consumed by cell `(i, j)`'s
lightning and growth tests.  Only the prior grid `g` is read; `new`
starts as `grid.copy()`, so untouched and out-of-range cells keep their
old value. -/
def step (rows cols : Nat) (p_growth p_lightning : ℚ)
    (ug ul : Nat → Nat → ℚ) (g : Grid) : Grid := fun i j =>
  if i < rows ∧ j < cols then
    if g i j = 2 then 0
    else if g i j = 1 then
      if windowAnyFire rows cols g i j ∨ ul i j < p_lightning then 2 else g i j
    else if g i j = 0 ∧ ug i j < p_growth then 1
    else g i j
  else g i j

end FireModel

/-- At least one of the 8 in-bounds Moore neighbours of `(i, j)` (the
cell itself excluded) is BURNING — the specification's trigger
condition. -/
def mooreAnyFire (rows cols : Nat) (g : Grid) (i j : Nat) : Prop :=
  ∃ p ∈ (Finset.range rows ×ˢ Finset.range cols).filter
      (fun p => p ≠ (i, j) ∧ i - 1 ≤ p.1 ∧ p.1 ≤ i + 1 ∧ j - 1 ≤ p.2 ∧ p.2 ≤ j + 1),
    g p.1 p.2 = 2

instance (rows cols : Nat) (g : Grid) (i j : Nat) :
    Decidable (mooreAnyFire rows cols g i j) := by
  unfold mooreAnyFire; infer_instance

/-- Number of ALIVE cells among the (at most 8) in-bounds Moore
neighbours of `(i, j)`, the cell itself excluded — the `n` of the
specification under the bounded edge policy of src/models.py. -/
def mooreAliveCount (rows cols : Nat) (g : Grid) (i j : Nat) : ℕ :=
  ((Finset.range rows ×ˢ Finset.range cols).filter
    (fun p => p ≠ (i, j) ∧ i - 1 ≤ p.1 ∧ p.1 ≤ i + 1 ∧ j - 1 ≤ p.2 ∧ p.2 ≤ j + 1
      ∧ g p.1 p.2 = 1)).card

/-! ## Toroidal variant (src/celllab_mix_full.py, `GameOfLife`) -/

/-- `np.roll(g, d, axis)` read at index `i` yields `g[(i - d) mod n]`;
`torIdx n (i - d)` is that wrapped index. -/
def torIdx (n : Nat) (x : ℤ) : Nat := (x % (n : ℤ)).toNat

/-- The 8 Moore offsets in the iteration order of
`for di in (-1,0,1) for dj in (-1,0,1) if not (di==0 and dj==0)`. -/
def mooreOffsets : List (ℤ × ℤ) :=
  [(-1,-1),(-1,0),(-1,1),(0,-1),(0,1),(1,-1),(1,0),(1,1)]

namespace GameOfLife

/-- Neighbour sum `n` of `GameOfLife.step` (src/celllab_mix_full.py):
sum of the 8 rolled copies of the grid, read pointwise. -/
def torN (h w : Nat) (g : Grid) (i j : Nat) : ℤ :=
  (mooreOffsets.map
    (fun d => g (torIdx h ((i : ℤ) - d.1)) (torIdx w ((j : ℤ) - d.2)))).sum

/-- `newg = (((g==1) & ((n==2)|(n==3))) | ((g==0) & (n==3))).astype(int8)`. -/
def newg (h w : Nat) (g : Grid) : Grid := fun i j =>
  if (g i j = 1 ∧ (torN h w g i j = 2 ∨ torN h w g i j = 3)) ∨
      (g i j = 0 ∧ torN h w g i j = 3) then 1 else 0

/-- `births = int(((g==0) & (n==3)).sum())`. -/
def births (h w : Nat) (g : Grid) : ℕ :=
  ((Finset.range h ×ˢ Finset.range w).filter
    (fun p => g p.1 p.2 = 0 ∧ torN h w g p.1 p.2 = 3)).card

/-- `deaths = int(((g==1) & ~((n==2)|(n==3))).sum())`. -/
def deaths (h w : Nat) (g : Grid) : ℕ :=
  ((Finset.range h ×ˢ Finset.range w).filter
    (fun p => g p.1 p.2 = 1 ∧
      ¬(torN h w g p.1 p.2 = 2 ∨ torN h w g p.1 p.2 = 3))).card

/-- `alive = int(newg.sum())`. -/
def alive (h w : Nat) (g : Grid) : ℤ :=
  ∑ p ∈ Finset.range h ×ˢ Finset.range w, newg h w g p.1 p.2

end GameOfLife

/-- Number of ALIVE cells read at the 8 toroidally-wrapped Moore
neighbour positions of `(i, j)` — the `n` of the specification under
the wraparound edge policy. -/
def torMooreAliveCount (h w : Nat) (g : Grid) (i j : Nat) : ℕ :=
  mooreOffsets.countP
    (fun d => decide (g (torIdx h ((i : ℤ) - d.1)) (torIdx w ((j : ℤ) - d.2)) = 1))

/-- Count of ALIVE (= 1) cells of a grid on an `h × w` domain: the
specification's `alive` of a grid. -/
def aliveCount (h w : Nat) (g : Grid) : ℕ :=
  ((Finset.range h ×ˢ Finset.range w).filter (fun p => g p.1 p.2 = 1)).card

namespace ForestFire

/-- `neighbor_fire` of `ForestFire.step` (src/celllab_mix_full.py):
or-accumulation of `np.roll(np.roll(g, di, 0), dj, 1) == FIRE` over the
8 non-zero offsets; `np.roll(g, d, axis)` read at `i` is
`g[(i - d) mod n]`. -/
def neighborFire (h w : Nat) (g : Grid) (i j : Nat) : Prop :=
  ∃ d ∈ mooreOffsets, g (torIdx h ((i : ℤ) - d.1)) (torIdx w ((j : ℤ) - d.2)) = 2

instance (h w : Nat) (g : Grid) (i j : Nat) :
    Decidable (neighborFire h w g i j) := by
  unfold neighborFire; infer_instance

/-- `to_fire = trees & (neighbor_fire | lightning)`, with `lightning`
the per-cell draw `ul i j < p_lightning`. -/
def toFire (h w : Nat) (pl : ℚ) (ul : Nat → Nat → ℚ) (g : Grid)
    (i j : Nat) : Prop :=
  g i j = 1 ∧ (neighborFire h w g i j ∨ ul i j < pl)

instance (h w : Nat) (pl : ℚ) (ul : Nat → Nat → ℚ) (g : Grid) (i j : Nat) :
    Decidable (toFire h w pl ul g i j) := by
  unfold toFire; infer_instance

/-- The updated grid of `ForestFire.step`: `newg = np.copy(g)`, then
`newg[g==FIRE] = EMPTY`, `newg[to_fire] = FIRE`,
`newg[empty & grow] = TREE` (the three masks are disjoint). -/
def newg (h w : Nat) (pg pl : ℚ) (ug ul : Nat → Nat → ℚ) (g : Grid) :
    Grid := fun i j =>
  if g i j = 2 then 0
  else if toFire h w pl ul g i j then 2
  else if g i j = 0 ∧ ug i j < pg then 1
  else g i j

/-- `int(to_fire.sum())`: the number of TREE→BURNING transitions. -/
def burnCount (h w : Nat) (pl : ℚ) (ul : Nat → Nat → ℚ) (g : Grid) : ℕ :=
  ((Finset.range h ×ˢ Finset.range w).filter
    (fun p => toFire h w pl ul g p.1 p.2)).card

/-- State of a `ForestFire` instance (src/celllab_mix_full.py):
the grid plus the cumulative `burned_total` counter and the stored
parameters. -/
structure Sim where
  h : Nat
  w : Nat
  grid : Grid
  burned_total : Nat
  p_growth : ℚ
  p_lightning : ℚ

/-- One `ForestFire.step` call: replaces the grid and accumulates
`self.burned_total += int(to_fire.sum())`.  The pair `(ug, ul)` gives
this tick's random draws. -/
def step (s : Sim) (d : (Nat → Nat → ℚ) × (Nat → Nat → ℚ)) : Sim :=
  { s with
    grid := newg s.h s.w s.p_growth s.p_lightning d.1 d.2 s.grid,
    burned_total :=
      s.burned_total + burnCount s.h s.w s.p_lightning d.2 s.grid }

/-- A sequence of Fire steps, one per element of `draws`. -/
def run (s : Sim) (draws : List ((Nat → Nat → ℚ) × (Nat → Nat → ℚ))) : Sim :=
  draws.foldl step s

end ForestFire

/-- A grid together with its shape, as held by `AutomataCanvas`
(src/canvas.py). -/
structure SizedGrid where
  rows : Nat
  cols : Nat
  cell : Grid

/-- Embedding of `AutomataCanvas.set_grid_shape` (src/canvas.py), and
of the equivalent resize in `MainWindow.on_resize_grid`
(src/celllab_mix_full.py): `new = np.zeros((rows, cols))`, then
`new[:min(rows, self.rows), :min(cols, self.cols)] =
self.grid[:min(rows, self.rows), :min(cols, self.cols)]`. -/
def set_grid_shape (g : SizedGrid) (rows cols : Nat) : SizedGrid :=
  { rows := rows, cols := cols,
    cell := fun i j =>
      if i < min rows g.rows ∧ j < min cols g.cols then g.cell i j else 0 }

/-- Concrete 2×2 sized grid for witnesses. -/
def demoSized : SizedGrid := ⟨2, 2, gridOfRows [[1, 2], [3, 4]]⟩

/-- Clamping of a probability parameter to [0,1]; the code performs no
such clamping and no validation, but behaves as if parameters were
clamped, because every draw lies in [0,1). -/
def clampQ (p : ℚ) : ℚ := max 0 (min 1 p)

/-- Modelled from the spec: the Blinker entry of the pattern catalogue
`PATTERNS` (`patterns.py` is imported by src/ui_main.py but missing
from the repository snapshot); spec §3 lists Blinker among the named
boolean matrices and §8 shows it as a horizontal 3-cell bar.  True is
encoded as 1. -/
def blinkerPattern : Grid := gridOfRows [[1, 1, 1]]

/-- Embedding of `CellularAutomatonApp.insert_pattern` (src/ui_main.py)
on the Life model with a valid pattern of shape `(pr, pc)`:
`self.clear()` zeroes the whole canvas grid, then
`self.canvas.grid[mr:mr+r, mc:mc+c] = p` writes the pattern block at
the centred anchor `mr = rows//2 - r//2`, `mc = cols//2 - c//2`.  The
result does not depend on the grid contents before the call. -/
def insert_pattern (rows cols pr pc : Nat) (p : Grid) : Grid :=
  fun i j =>
    if rows / 2 - pr / 2 ≤ i ∧ i < rows / 2 - pr / 2 + pr ∧
       cols / 2 - pc / 2 ≤ j ∧ j < cols / 2 - pc / 2 + pc then
      p (i - (rows / 2 - pr / 2)) (j - (cols / 2 - pc / 2))
    else 0

/-! ## Imperative view of src/models.py (array writes made explicit) -/

/-- A single array assignment `a[i, j] = v`. -/
def writeCell (a : Grid) (i j : Nat) (v : ℤ) : Grid :=
  fun i' j' => if i' = i ∧ j' = j then v else a i' j'

/-- Row-major iteration order of
`for i in range(rows): for j in range(cols):`. -/
def indexList (rows cols : Nat) : List (Nat × Nat) :=
  (List.range rows).flatMap (fun i => (List.range cols).map (fun j => (i, j)))

/-- The two arrays in scope inside `LifeModel.step` / `FireModel.step`
(src/models.py): the `grid` argument, which the loop only reads, and
the `new` array (`new = grid.copy()`), which the loop assigns. -/
structure StepState where
  grid : Grid
  new : Grid

/-- One iteration of the `LifeModel.step` loop body (src/models.py):
reads `grid` and conditionally assigns `new[i, j]`. -/
def lifeBody (rows cols : Nat) (st : StepState) (q : Nat × Nat) : StepState :=
  if st.grid q.1 q.2 = 1 ∧ (LifeModel.total rows cols st.grid q.1 q.2 < 2 ∨
      3 < LifeModel.total rows cols st.grid q.1 q.2) then
    { st with new := writeCell st.new q.1 q.2 0 }
  else if st.grid q.1 q.2 = 0 ∧ LifeModel.total rows cols st.grid q.1 q.2 = 3 then
    { st with new := writeCell st.new q.1 q.2 1 }
  else st

/-- The imperative run of `LifeModel.step`: `new = grid.copy()`, then
the double loop over all cells. -/
def lifeStepImp (rows cols : Nat) (g : Grid) : StepState :=
  (indexList rows cols).foldl (lifeBody rows cols) ⟨g, g⟩

/-- One iteration of the `FireModel.step` loop body (src/models.py). -/
def fireBody (rows cols : Nat) (pg pl : ℚ) (ug ul : Nat → Nat → ℚ)
    (st : StepState) (q : Nat × Nat) : StepState :=
  if st.grid q.1 q.2 = 2 then { st with new := writeCell st.new q.1 q.2 0 }
  else if st.grid q.1 q.2 = 1 then
    if FireModel.windowAnyFire rows cols st.grid q.1 q.2 ∨ ul q.1 q.2 < pl then
      { st with new := writeCell st.new q.1 q.2 2 }
    else st
  else if st.grid q.1 q.2 = 0 ∧ ug q.1 q.2 < pg then
    { st with new := writeCell st.new q.1 q.2 1 }
  else st

/-- The imperative run of `FireModel.step`. -/
def fireStepImp (rows cols : Nat) (pg pl : ℚ) (ug ul : Nat → Nat → ℚ)
    (g : Grid) : StepState :=
  (indexList rows cols).foldl (fireBody rows cols pg pl ug ul) ⟨g, g⟩

/-! ## RLE serializer (src/celllab_mix_full.py)

Strings are modelled as `List Char`; `";".join` / `str.split` are
`List.intercalate` / `List.splitOn`, and Python's decimal `str`/`int`
conversions are modelled digit by digit. -/

/-- One decimal digit character. -/
def digitChar (d : Nat) : Char :=
  match d with
  | 0 => '0' | 1 => '1' | 2 => '2' | 3 => '3' | 4 => '4'
  | 5 => '5' | 6 => '6' | 7 => '7' | 8 => '8' | _ => '9'

/-- Most-significant-first decimal digits of `n`; any `fuel ≥ n`
produces all digits. -/
def natCharsGo : Nat → Nat → List Char
  | 0, _ => []
  | _ + 1, 0 => []
  | fuel + 1, n + 1 => natCharsGo fuel ((n + 1) / 10) ++ [digitChar ((n + 1) % 10)]

/-- Python `str(n)` for a natural number. -/
def natToChars (n : Nat) : List Char :=
  if n = 0 then ['0'] else natCharsGo n n

/-- Python `f"{int(v)}"` for an integer value. -/
def intToChars (v : ℤ) : List Char :=
  if v < 0 then '-' :: natToChars (-v).toNat else natToChars v.toNat

/-- Python `int()` on an unsigned decimal string; `none` models the
`ValueError` on an empty or non-digit string. -/
def parseNat (cs : List Char) : Option Nat :=
  if cs ≠ [] ∧ cs.all Char.isDigit = true then
    some (cs.foldl (fun a ch => a * 10 + (ch.toNat - 48)) 0)
  else none

/-- Python `int()` with an optional minus sign. -/
def parseInt (cs : List Char) : Option ℤ :=
  if cs.head? = some '-' then (parseNat cs.tail).map (fun n => -(Int.ofNat n))
  else (parseNat cs).map (fun n => Int.ofNat n)

/-- The accumulation loop of `rle_encode`: `last` and `count` hold the
current run; every value change emits a `(value, count)` pair. -/
def rleRunsGo : List ℤ → ℤ → ℕ → List (ℤ × ℕ)
  | [], last, count => [(last, count)]
  | v :: vs, last, count =>
    if v = last then rleRunsGo vs last (count + 1)
    else (last, count) :: rleRunsGo vs v 1

/-- The run list of a flattened grid. -/
def rleRuns : List ℤ → List (ℤ × ℕ)
  | [] => []
  | x :: xs => rleRunsGo xs x 1

/-- The token `f"{int(last)}:{count}"`. -/
def runToken (t : ℤ × ℕ) : List Char :=
  intToChars t.1 ++ ':' :: natToChars t.2

/-- `rle_encode` (src/celllab_mix_full.py): row-major flatten, run
pairs, tokens joined with `;`; the empty flat array gives the empty
string. -/
def rle_encode (g : List (List ℤ)) : List Char :=
  if g.flatten = [] then []
  else [';'].intercalate ((rleRuns g.flatten).map runToken)

/-- `v, c = token.split(":")` then `int(v)`, `int(c)`; `none` models
the exceptions on a token without exactly one `:` or with non-numeric
parts. -/
def parseToken (tok : List Char) : Option (ℤ × ℕ) :=
  match tok.splitOn ':' with
  | [vs, cs] =>
    match parseInt vs, parseNat cs with
    | some v, some c => some (v, c)
    | _, _ => none
  | _ => none

/-- `np.array(vals).reshape((r, c))`: `r` rows of `c` entries each. -/
def chunkRows (c : Nat) : Nat → List ℤ → List (List ℤ)
  | 0, _ => []
  | r + 1, l => l.take c :: chunkRows c r (l.drop c)

/-- `rle_decode` (src/celllab_mix_full.py): the empty string yields
`np.zeros(shape)`; otherwise split on `;`, parse every token, replicate
each value `count` times, and reshape — `none` models the exceptions on
malformed tokens or a flat-length/shape mismatch. -/
def rle_decode (s : List Char) (r c : Nat) : Option (List (List ℤ)) :=
  if s = [] then some (List.replicate r (List.replicate c (0 : ℤ)))
  else do
    let runs ← (s.splitOn ';').mapM parseToken
    let vals := runs.flatMap (fun t => List.replicate t.2 t.1)
    if vals.length = r * c then some (chunkRows c r vals) else none

lemma windowSum_eq_filter (rows cols : Nat) (g : Grid) (i j : Nat) :
    LifeModel.windowSum rows cols g i j =
      ∑ p ∈ (Finset.range rows ×ˢ Finset.range cols).filter
          (fun p => i - 1 ≤ p.1 ∧ p.1 ≤ i + 1 ∧ j - 1 ≤ p.2 ∧ p.2 ≤ j + 1),
        g p.1 p.2 := by
  rw [LifeModel.windowSum, ← Finset.sum_product']
  congr 1
  ext ⟨a, b⟩
  simp only [Finset.mem_product, Finset.mem_Ico, Finset.mem_filter, Finset.mem_range]
  omega

lemma total_eq_mooreAliveCount (rows cols : Nat) (g : Grid)
    (hg : ∀ a < rows, ∀ b < cols, g a b = 0 ∨ g a b = 1)
    (i j : Nat) (hi : i < rows) (hj : j < cols) :
    LifeModel.total rows cols g i j = (mooreAliveCount rows cols g i j : ℤ) := by
  classical
  rw [LifeModel.total, windowSum_eq_filter]
  set W := (Finset.range rows ×ˢ Finset.range cols).filter
      (fun p => i - 1 ≤ p.1 ∧ p.1 ≤ i + 1 ∧ j - 1 ≤ p.2 ∧ p.2 ≤ j + 1) with hW
  have hmem : (i, j) ∈ W := by
    simp only [hW, Finset.mem_filter, Finset.mem_product, Finset.mem_range]
    omega
  rw [← Finset.add_sum_erase W (fun p => g p.1 p.2) hmem]
  have hsum : ∑ p ∈ W.erase (i, j), g p.1 p.2
      = ∑ p ∈ W.erase (i, j), (if g p.1 p.2 = 1 then (1 : ℤ) else 0) := by
    refine Finset.sum_congr rfl fun p hp => ?_
    have hpW : p ∈ W := Finset.mem_of_mem_erase hp
    have hp1 : p.1 < rows := by
      have := (Finset.mem_filter.mp (hW ▸ hpW)).1
      exact (Finset.mem_range.mp (Finset.mem_product.mp this).1)
    have hp2 : p.2 < cols := by
      have := (Finset.mem_filter.mp (hW ▸ hpW)).1
      exact (Finset.mem_range.mp (Finset.mem_product.mp this).2)
    rcases hg p.1 hp1 p.2 hp2 with h | h <;> simp [h]
  rw [hsum, Finset.sum_boole]
  have hset : (W.erase (i, j)).filter (fun p => g p.1 p.2 = 1)
      = (Finset.range rows ×ˢ Finset.range cols).filter
          (fun p => p ≠ (i, j) ∧ i - 1 ≤ p.1 ∧ p.1 ≤ i + 1 ∧ j - 1 ≤ p.2 ∧ p.2 ≤ j + 1
            ∧ g p.1 p.2 = 1) := by
    ext p
    simp only [hW, Finset.mem_filter, Finset.mem_erase, Finset.mem_product,
      Finset.mem_range]
    tauto
  rw [hset, mooreAliveCount]
  ring

/-- Bounded-edge implementation (src/models.py) follows the Life rule. -/
lemma life_step_rule_bounded (rows cols : Nat) (g : Grid)
    (hg : ∀ a < rows, ∀ b < cols, g a b = 0 ∨ g a b = 1)
    (i j : Nat) (hi : i < rows) (hj : j < cols) :
    LifeModel.step rows cols g i j =
      if g i j = 1 ∧ ¬(mooreAliveCount rows cols g i j = 2 ∨
                       mooreAliveCount rows cols g i j = 3) then 0
      else if g i j = 0 ∧ mooreAliveCount rows cols g i j = 3 then 1
      else g i j := by
  have ht := total_eq_mooreAliveCount rows cols g hg i j hi hj
  rw [LifeModel.step]
  rw [if_pos (And.intro hi hj), ht]
  refine if_congr (and_congr_right fun _ => ?_) rfl (if_congr (and_congr_right fun _ => ?_) rfl rfl)
  · omega
  · omega

lemma sum_map_eq_countP (f : ℤ × ℤ → ℤ) (l : List (ℤ × ℤ))
    (hf : ∀ d ∈ l, f d = 0 ∨ f d = 1) :
    (l.map f).sum = (l.countP (fun d => decide (f d = 1)) : ℤ) := by
  induction l with
  | nil => simp
  | cons d t ih =>
    rw [List.map_cons, List.sum_cons, List.countP_cons]
    have ht := ih (fun x hx => hf x (List.mem_cons_of_mem d hx))
    rcases hf d (List.mem_cons_self d t) with h | h <;>
      simp [h, ht] <;> push_cast <;> ring

lemma torN_eq_torMoore (h w : Nat) (g : Grid)
    (hg : ∀ a < h, ∀ b < w, g a b = 0 ∨ g a b = 1)
    (hh : 0 < h) (hw : 0 < w) (i j : Nat) :
    GameOfLife.torN h w g i j = (torMooreAliveCount h w g i j : ℤ) := by
  rw [GameOfLife.torN, torMooreAliveCount]
  refine sum_map_eq_countP _ _ fun d _ => ?_
  refine hg _ ?_ _ ?_
  · have := Int.emod_lt_of_pos ((i : ℤ) - d.1) (by exact_mod_cast hh : (0 : ℤ) < h)
    rw [torIdx]
    omega
  · have := Int.emod_lt_of_pos ((j : ℤ) - d.2) (by exact_mod_cast hw : (0 : ℤ) < w)
    rw [torIdx]
    omega

/-- Toroidal implementation (src/celllab_mix_full.py) follows the Life
rule. -/
lemma life_step_rule_toroidal (h w : Nat) (g : Grid)
    (hg : ∀ a < h, ∀ b < w, g a b = 0 ∨ g a b = 1)
    (hh : 0 < h) (hw : 0 < w) (i j : Nat) (hi : i < h) (hj : j < w) :
    GameOfLife.newg h w g i j =
      if g i j = 1 ∧ ¬(torMooreAliveCount h w g i j = 2 ∨
                       torMooreAliveCount h w g i j = 3) then 0
      else if g i j = 0 ∧ torMooreAliveCount h w g i j = 3 then 1
      else g i j := by
  have ht := torN_eq_torMoore h w g hg hh hw i j
  rw [GameOfLife.newg, ht]
  rcases hg i hi j hj with h0 | h1
  · rw [h0]
    by_cases hn : torMooreAliveCount h w g i j = 3 <;> simp [hn] <;> omega
  · rw [h1]
    by_cases hn : torMooreAliveCount h w g i j = 2 ∨ torMooreAliveCount h w g i j = 3 <;>
      simp [hn] <;> omega

/-- C1: for every Life grid and cell, with `n` the implementation's
count of ALIVE Moore neighbours (bounded window in src/models.py,
toroidal wraparound in src/celllab_mix_full.py), one Life step maps an
ALIVE cell with `n ∉ {2,3}` to DEAD, a DEAD cell with `n = 3` to ALIVE,
and leaves the cell unchanged otherwise. -/
theorem life_step_follows_life_rule (rows cols : Nat) (g : Grid)
    (hg : ∀ a < rows, ∀ b < cols, g a b = 0 ∨ g a b = 1)
    (i j : Nat) (hi : i < rows) (hj : j < cols) :
    (LifeModel.step rows cols g i j =
      if g i j = 1 ∧ ¬(mooreAliveCount rows cols g i j = 2 ∨
                       mooreAliveCount rows cols g i j = 3) then 0
      else if g i j = 0 ∧ mooreAliveCount rows cols g i j = 3 then 1
      else g i j) ∧
    (GameOfLife.newg rows cols g i j =
      if g i j = 1 ∧ ¬(torMooreAliveCount rows cols g i j = 2 ∨
                       torMooreAliveCount rows cols g i j = 3) then 0
      else if g i j = 0 ∧ torMooreAliveCount rows cols g i j = 3 then 1
      else g i j) :=
  ⟨life_step_rule_bounded rows cols g hg i j hi hj,
   life_step_rule_toroidal rows cols g hg (Nat.lt_of_le_of_lt (Nat.zero_le i) hi)
     (Nat.lt_of_le_of_lt (Nat.zero_le j) hj) i j hi hj⟩

/-- Witness for C1: the Life rule theorem applied to the concrete
3×3 blinker at cell (0, 1). -/
theorem life_step_follows_life_rule_witness :
    (∀ a < (3 : Nat), ∀ b < (3 : Nat), blinkerH a b = 0 ∨ blinkerH a b = 1) ∧
    ((LifeModel.step 3 3 blinkerH 0 1 =
      if blinkerH 0 1 = 1 ∧ ¬(mooreAliveCount 3 3 blinkerH 0 1 = 2 ∨
                       mooreAliveCount 3 3 blinkerH 0 1 = 3) then 0
      else if blinkerH 0 1 = 0 ∧ mooreAliveCount 3 3 blinkerH 0 1 = 3 then 1
      else blinkerH 0 1) ∧
    (GameOfLife.newg 3 3 blinkerH 0 1 =
      if blinkerH 0 1 = 1 ∧ ¬(torMooreAliveCount 3 3 blinkerH 0 1 = 2 ∨
                       torMooreAliveCount 3 3 blinkerH 0 1 = 3) then 0
      else if blinkerH 0 1 = 0 ∧ torMooreAliveCount 3 3 blinkerH 0 1 = 3 then 1
      else blinkerH 0 1)) := by
  constructor
  · decide
  · exact life_step_follows_life_rule 3 3 blinkerH (by decide) 0 1 (by decide) (by decide)

/-- C4: the 3×3 horizontal Blinker `[[0,0,0],[1,1,1],[0,0,0]]`, stepped
once by `LifeModel.step` with bounded edges, equals
`[[0,1,0],[0,1,0],[0,1,0]]`, and stepped twice equals the original. -/
theorem blinker_period_two :
    gridEqOn 3 3 (LifeModel.step 3 3 blinkerH) blinkerV ∧
    gridEqOn 3 3 (LifeModel.step 3 3 (LifeModel.step 3 3 blinkerH)) blinkerH := by
  constructor <;> decide

/-! ## C2: the Fire rule (src/models.py, `FireModel.step`) -/

lemma windowAnyFire_iff_moore (rows cols : Nat) (g : Grid) (i j : Nat)
    (hc : g i j ≠ 2) :
    FireModel.windowAnyFire rows cols g i j ↔ mooreAnyFire rows cols g i j := by
  unfold FireModel.windowAnyFire mooreAnyFire
  constructor
  · rintro ⟨p, hp, hp2⟩
    rw [Finset.mem_product, Finset.mem_Ico, Finset.mem_Ico] at hp
    refine ⟨p, ?_, hp2⟩
    simp only [Finset.mem_filter, Finset.mem_product, Finset.mem_range]
    refine ⟨⟨by omega, by omega⟩, ?_, by omega, by omega, by omega, by omega⟩
    intro heq
    rw [heq] at hp2
    exact hc hp2
  · rintro ⟨p, hp, hp2⟩
    simp only [Finset.mem_filter, Finset.mem_product, Finset.mem_range] at hp
    refine ⟨p, ?_, hp2⟩
    rw [Finset.mem_product, Finset.mem_Ico, Finset.mem_Ico]
    omega

/-- C2: one Fire step, computed from the prior grid only, sends a
BURNING cell to EMPTY unconditionally; sends a TREE cell to BURNING
exactly when at least one of its 8 neighbours is BURNING or its
lightning draw succeeds (either trigger suffices); sends an EMPTY cell
to TREE exactly when its growth draw succeeds; and with
`p_lightning = 0` no lightning ignition occurs, with `p_growth = 0` no
regrowth occurs. -/
theorem fire_step_follows_fire_rule (rows cols : Nat) (pg pl : ℚ)
    (ug ul : Nat → Nat → ℚ)
    (hd : ∀ a < rows, ∀ b < cols,
      0 ≤ ul a b ∧ ul a b < 1 ∧ 0 ≤ ug a b ∧ ug a b < 1)
    (g : Grid) (i j : Nat) (hi : i < rows) (hj : j < cols) :
    (g i j = 2 → FireModel.step rows cols pg pl ug ul g i j = 0) ∧
    (g i j = 1 → FireModel.step rows cols pg pl ug ul g i j =
        (if mooreAnyFire rows cols g i j ∨ ul i j < pl then 2 else 1)) ∧
    (g i j = 0 → FireModel.step rows cols pg pl ug ul g i j =
        (if ug i j < pg then 1 else 0)) ∧
    (pl = 0 → g i j = 1 → FireModel.step rows cols pg pl ug ul g i j =
        (if mooreAnyFire rows cols g i j then 2 else 1)) ∧
    (pg = 0 → g i j = 0 → FireModel.step rows cols pg pl ug ul g i j = 0) := by
  have hb : FireModel.step rows cols pg pl ug ul g i j =
      if g i j = 2 then 0
      else if g i j = 1 then
        if FireModel.windowAnyFire rows cols g i j ∨ ul i j < pl then 2 else g i j
      else if g i j = 0 ∧ ug i j < pg then 1
      else g i j := by
    rw [FireModel.step, if_pos (And.intro hi hj)]
  refine ⟨fun h2 => ?_, fun h1 => ?_, fun h0 => ?_, fun hpl h1 => ?_, fun hpg h0 => ?_⟩
  · rw [hb, if_pos h2]
  · rw [hb, if_neg (by rw [h1]; decide), if_pos h1, h1,
      if_congr (or_congr_left (windowAnyFire_iff_moore rows cols g i j (by rw [h1]; decide)))
        rfl rfl]
  · rw [hb, if_neg (by rw [h0]; decide), if_neg (by rw [h0]; decide)]
    by_cases hu : ug i j < pg
    · rw [if_pos ⟨h0, hu⟩, if_pos hu]
    · rw [if_neg (fun hc => hu hc.2), if_neg hu, h0]
  · have hul : ¬ ul i j < pl := by
      rw [hpl]
      exact not_lt.mpr (hd i hi j hj).1
    rw [hb, if_neg (by rw [h1]; decide), if_pos h1, h1,
      if_congr (Iff.trans
        (or_congr_left (windowAnyFire_iff_moore rows cols g i j (by rw [h1]; decide)))
        (or_iff_left hul)) rfl rfl]
  · have hug : ¬ ug i j < pg := by
      rw [hpg]
      exact not_lt.mpr (hd i hi j hj).2.2.1
    rw [hb, if_neg (by rw [h0]; decide), if_neg (by rw [h0]; decide),
      if_neg (fun hc => hug hc.2), h0]

/-- Witness for C2: the Fire rule theorem applied to the concrete grid
`fireDemo` at the TREE cell (0, 1), with `p_growth = 1`,
`p_lightning = 0` and constant draws 0. -/
theorem fire_step_follows_fire_rule_witness :
    (∀ a < (2 : Nat), ∀ b < (2 : Nat),
      0 ≤ zeroDraw a b ∧ zeroDraw a b < 1 ∧ 0 ≤ zeroDraw a b ∧ zeroDraw a b < 1) ∧
    ((fireDemo 0 1 = 2 →
        FireModel.step 2 2 1 0 zeroDraw zeroDraw fireDemo 0 1 = 0) ∧
    (fireDemo 0 1 = 1 →
        FireModel.step 2 2 1 0 zeroDraw zeroDraw fireDemo 0 1 =
          (if mooreAnyFire 2 2 fireDemo 0 1 ∨ zeroDraw 0 1 < 0 then 2 else 1)) ∧
    (fireDemo 0 1 = 0 →
        FireModel.step 2 2 1 0 zeroDraw zeroDraw fireDemo 0 1 =
          (if zeroDraw 0 1 < 1 then 1 else 0)) ∧
    ((0 : ℚ) = 0 → fireDemo 0 1 = 1 →
        FireModel.step 2 2 1 0 zeroDraw zeroDraw fireDemo 0 1 =
          (if mooreAnyFire 2 2 fireDemo 0 1 then 2 else 1)) ∧
    ((1 : ℚ) = 0 → fireDemo 0 1 = 0 →
        FireModel.step 2 2 1 0 zeroDraw zeroDraw fireDemo 0 1 = 0)) := by
  constructor
  · decide
  · exact fire_step_follows_fire_rule 2 2 1 0 zeroDraw zeroDraw
      (by decide) fireDemo 0 1 (by decide) (by decide)

/-! ## C5: `burned_total` accounting and monotonicity -/

/-- C5: one Fire step adds exactly the number of TREE→BURNING
transitions of that step to `burned_total`, and across any sequence of
steps `burned_total` never decreases. -/
theorem burned_total_monotone (s : ForestFire.Sim)
    (d : (Nat → Nat → ℚ) × (Nat → Nat → ℚ))
    (draws : List ((Nat → Nat → ℚ) × (Nat → Nat → ℚ))) :
    (ForestFire.step s d).burned_total =
      s.burned_total +
        ForestFire.burnCount s.h s.w s.p_lightning d.2 s.grid ∧
    s.burned_total ≤ (ForestFire.run s draws).burned_total := by
  refine ⟨rfl, ?_⟩
  induction draws generalizing s with
  | nil => exact Nat.le_refl _
  | cons e t ih =>
    refine Nat.le_trans ?_ (ih (ForestFire.step s e))
    exact Nat.le_add_right _ _

/-! ## C6: Life step statistics (src/celllab_mix_full.py) -/

lemma alive_plus_deaths (h w : Nat) (g : Grid) :
    GameOfLife.alive h w g + (GameOfLife.deaths h w g : ℤ)
      = (aliveCount h w g : ℤ) + (GameOfLife.births h w g : ℤ) := by
  classical
  rw [GameOfLife.alive, GameOfLife.deaths, GameOfLife.births, aliveCount,
    ← Finset.sum_boole, ← Finset.sum_boole, ← Finset.sum_boole,
    ← Finset.sum_add_distrib, ← Finset.sum_add_distrib]
  refine Finset.sum_congr rfl fun p _ => ?_
  rw [GameOfLife.newg]
  split_ifs <;> omega

/-- C6: for every grid, the Life step statistics of
src/celllab_mix_full.py satisfy `births + deaths ≤ h·w`, and the alive
count of the new grid equals the prior grid's alive count minus deaths
plus births. -/
theorem life_stats_consistent (h w : Nat) (g : Grid) :
    GameOfLife.births h w g + GameOfLife.deaths h w g ≤ h * w ∧
    GameOfLife.alive h w g =
      (aliveCount h w g : ℤ) - (GameOfLife.deaths h w g : ℤ)
        + (GameOfLife.births h w g : ℤ) := by
  classical
  constructor
  · have hdisj :
        Disjoint
          ((Finset.range h ×ˢ Finset.range w).filter
            (fun p => g p.1 p.2 = 0 ∧ GameOfLife.torN h w g p.1 p.2 = 3))
          ((Finset.range h ×ˢ Finset.range w).filter
            (fun p => g p.1 p.2 = 1 ∧
              ¬(GameOfLife.torN h w g p.1 p.2 = 2 ∨
                GameOfLife.torN h w g p.1 p.2 = 3))) := by
      rw [Finset.disjoint_left]
      intro p hp hq
      rw [Finset.mem_filter] at hp hq
      omega
    rw [GameOfLife.births, GameOfLife.deaths,
      ← Finset.card_union_of_disjoint hdisj]
    calc _ ≤ (Finset.range h ×ˢ Finset.range w).card :=
            Finset.card_le_card
              (Finset.union_subset (Finset.filter_subset _ _)
                (Finset.filter_subset _ _))
      _ = h * w := by rw [Finset.card_product, Finset.card_range, Finset.card_range]
  · have := alive_plus_deaths h w g
    omega

/-! ## C7: grid resize (src/canvas.py `set_grid_shape`) -/

/-- C7: resizing to a positive target shape yields a grid of that
shape whose top-left overlap with the old grid is copied verbatim and
whose remaining cells are zero. -/
theorem resize_preserves_overlap (g : SizedGrid) (r2 c2 : Nat)
    (hr : 0 < r2) (hc : 0 < c2) :
    (set_grid_shape g r2 c2).rows = r2 ∧
    (set_grid_shape g r2 c2).cols = c2 ∧
    (∀ i < min g.rows r2, ∀ j < min g.cols c2,
      (set_grid_shape g r2 c2).cell i j = g.cell i j) ∧
    (∀ i < r2, ∀ j < c2, g.rows ≤ i ∨ g.cols ≤ j →
      (set_grid_shape g r2 c2).cell i j = 0) := by
  refine ⟨rfl, rfl, fun i hi j hj => ?_, fun i hi j hj hout => ?_⟩
  · exact if_pos ⟨by omega, by omega⟩
  · exact if_neg (by omega)

/-- Witness for C7: the resize theorem applied to the concrete 2×2
grid `demoSized`, grown to shape 3×1. -/
theorem resize_preserves_overlap_witness :
    ((0 : Nat) < 3 ∧ (0 : Nat) < 1) ∧
    ((set_grid_shape demoSized 3 1).rows = 3 ∧
    (set_grid_shape demoSized 3 1).cols = 1 ∧
    (∀ i < min demoSized.rows 3, ∀ j < min demoSized.cols 1,
      (set_grid_shape demoSized 3 1).cell i j = demoSized.cell i j) ∧
    (∀ i < (3 : Nat), ∀ j < (1 : Nat), demoSized.rows ≤ i ∨ demoSized.cols ≤ j →
      (set_grid_shape demoSized 3 1).cell i j = 0)) := by
  constructor
  · decide
  · exact resize_preserves_overlap demoSized 3 1 (by decide) (by decide)

/-! ## C8: out-of-range probability parameters -/

/-- C8 counterexample: with `p_growth = 2`, outside [0,1], the Fire
rule does not signal any invalid-parameter condition — it proceeds and
computes a normal step, here growing a TREE on the single EMPTY cell
(the growth draw 0 satisfies `0 < 2`). -/
theorem fire_step_no_validation :
    FireModel.step 1 1 2 0 zeroDraw zeroDraw (gridOfRows [[0]]) 0 0 = 1 := by
  decide

lemma lt_clampQ_iff (p u : ℚ) (h0 : 0 ≤ u) (h1 : u < 1) :
    u < clampQ p ↔ u < p := by
  rw [clampQ, lt_max_iff, lt_min_iff]
  constructor
  · rintro (h | ⟨_, h⟩)
    · exact absurd h (not_lt.mpr h0)
    · exact h
  · intro h
    exact Or.inr ⟨h1, h⟩

/-- C8 amended: the Fire rule performs no validation of `p_growth` /
`p_lightning`; an out-of-range value is used directly in the threshold
comparison, which (draws lying in [0,1)) is observably the same as
silently clamping it to [0,1] — no invalid-parameter condition is ever
signalled. -/
theorem fire_step_params_as_if_clamped (rows cols : Nat) (pg pl : ℚ)
    (ug ul : Nat → Nat → ℚ)
    (hd : ∀ a < rows, ∀ b < cols,
      0 ≤ ul a b ∧ ul a b < 1 ∧ 0 ≤ ug a b ∧ ug a b < 1)
    (g : Grid) (i j : Nat) :
    FireModel.step rows cols pg pl ug ul g i j =
      FireModel.step rows cols (clampQ pg) (clampQ pl) ug ul g i j := by
  by_cases hij : i < rows ∧ j < cols
  · have hb := hd i hij.1 j hij.2
    rw [FireModel.step, FireModel.step]
    simp only [lt_clampQ_iff pl (ul i j) hb.1 hb.2.1,
      lt_clampQ_iff pg (ug i j) hb.2.2.1 hb.2.2.2]
  · rw [FireModel.step, FireModel.step, if_neg hij, if_neg hij]

/-- Witness for C8's amended theorem at the concrete 1×1 EMPTY grid
with `p_growth = 2`, `p_lightning = -1` and zero draws. -/
theorem fire_step_params_as_if_clamped_witness :
    (∀ a < (1 : Nat), ∀ b < (1 : Nat),
      0 ≤ zeroDraw a b ∧ zeroDraw a b < 1 ∧ 0 ≤ zeroDraw a b ∧ zeroDraw a b < 1) ∧
    FireModel.step 1 1 2 (-1) zeroDraw zeroDraw (gridOfRows [[0]]) 0 0 =
      FireModel.step 1 1 (clampQ 2) (clampQ (-1)) zeroDraw zeroDraw
        (gridOfRows [[0]]) 0 0 := by
  constructor
  · decide
  · exact fire_step_params_as_if_clamped 1 1 2 (-1) zeroDraw zeroDraw
      (by decide) (gridOfRows [[0]]) 0 0

/-! ## C9: pattern insertion (src/ui_main.py `insert_pattern`) -/

/-- C9 counterexample: inserting the Blinker into a 3×3 grid whose
prior state is the vertical blinker.  Cell (0, 1) lies outside the
inserted pattern's bounding box (rows [1, 2), cols [0, 3)) and was
ALIVE before the insertion, yet afterwards it is DEAD: `insert_pattern`
clears the whole grid first, so cells outside the bounding box are not
left unchanged. -/
theorem insert_pattern_clears_outside :
    blinkerV 0 1 = 1 ∧ insert_pattern 3 3 1 3 blinkerPattern 0 1 = 0 := by
  decide

/-- C9 amended: inserting a pattern (whose shape fits the grid) first
clears the grid, then writes the pattern block at the
integer-division-centred anchor; inside the block the grid takes the
pattern's values (true→ALIVE), and every cell outside the block is
DEAD regardless of the grid's contents before the call. -/
theorem insert_pattern_centres_pattern (rows cols pr pc : Nat) (p : Grid)
    (hr : pr ≤ rows) (hc : pc ≤ cols) (i j : Nat) :
    (rows / 2 - pr / 2 ≤ i → i < rows / 2 - pr / 2 + pr →
     cols / 2 - pc / 2 ≤ j → j < cols / 2 - pc / 2 + pc →
      insert_pattern rows cols pr pc p i j =
        p (i - (rows / 2 - pr / 2)) (j - (cols / 2 - pc / 2))) ∧
    (¬(rows / 2 - pr / 2 ≤ i ∧ i < rows / 2 - pr / 2 + pr ∧
       cols / 2 - pc / 2 ≤ j ∧ j < cols / 2 - pc / 2 + pc) →
      insert_pattern rows cols pr pc p i j = 0) := by
  refine ⟨fun h1 h2 h3 h4 => ?_, fun hout => ?_⟩
  · exact if_pos ⟨h1, h2, h3, h4⟩
  · exact if_neg hout

/-- Witness for C9's amended theorem: the Blinker inserted into a 3×3
grid, evaluated at the in-block cell (1, 0) and (through the second
conjunct) at the outside cell (0, 1). -/
theorem insert_pattern_centres_pattern_witness :
    ((1 : Nat) ≤ 3 ∧ (3 : Nat) ≤ 3) ∧
    ((3 / 2 - 1 / 2 ≤ (1 : Nat) → (1 : Nat) < 3 / 2 - 1 / 2 + 1 →
      3 / 2 - 3 / 2 ≤ (0 : Nat) → (0 : Nat) < 3 / 2 - 3 / 2 + 3 →
      insert_pattern 3 3 1 3 blinkerPattern 1 0 =
        blinkerPattern (1 - (3 / 2 - 1 / 2)) (0 - (3 / 2 - 3 / 2))) ∧
    (¬(3 / 2 - 1 / 2 ≤ (1 : Nat) ∧ (1 : Nat) < 3 / 2 - 1 / 2 + 1 ∧
       3 / 2 - 3 / 2 ≤ (0 : Nat) ∧ (0 : Nat) < 3 / 2 - 3 / 2 + 3) →
      insert_pattern 3 3 1 3 blinkerPattern 1 0 = 0)) := by
  constructor
  · decide
  · exact insert_pattern_centres_pattern 3 3 1 3 blinkerPattern
      (by decide) (by decide) 1 0

/-! ## C10: a step never mutates the input grid -/

lemma mem_indexList (rows cols i j : Nat) :
    (i, j) ∈ indexList rows cols ↔ i < rows ∧ j < cols := by
  simp only [indexList, List.mem_flatMap, List.mem_map, List.mem_range,
    Prod.mk.injEq]
  constructor
  · rintro ⟨a, ha, b, hb, rfl, rfl⟩
    exact ⟨ha, hb⟩
  · rintro ⟨hi, hj⟩
    exact ⟨i, hi, j, hj, rfl, rfl⟩

lemma indexList_nodup (rows cols : Nat) : (indexList rows cols).Nodup := by
  rw [indexList, List.nodup_flatMap]
  constructor
  · intro i _
    exact (List.nodup_range cols).map fun a b h => (Prod.ext_iff.mp h).2
  · refine List.Pairwise.imp ?_ (List.pairwise_lt_range rows)
    intro a b hab p hp hq
    simp only [List.mem_map, List.mem_range] at hp hq
    obtain ⟨x, _, hx⟩ := hp
    obtain ⟨y, _, hy⟩ := hq
    rw [← hx] at hy
    have hba : b = a := (Prod.ext_iff.mp hy).1
    omega

lemma foldl_lifeBody_grid (rows cols : Nat) (l : List (Nat × Nat))
    (st : StepState) :
    (l.foldl (lifeBody rows cols) st).grid = st.grid := by
  induction l generalizing st with
  | nil => rfl
  | cons q t ih =>
    rw [List.foldl_cons, ih]
    rw [lifeBody]
    split_ifs <;> rfl

lemma foldl_fireBody_grid (rows cols : Nat) (pg pl : ℚ)
    (ug ul : Nat → Nat → ℚ) (l : List (Nat × Nat)) (st : StepState) :
    (l.foldl (fireBody rows cols pg pl ug ul) st).grid = st.grid := by
  induction l generalizing st with
  | nil => rfl
  | cons q t ih =>
    rw [List.foldl_cons, ih]
    rw [fireBody]
    split_ifs <;> rfl

lemma foldl_lifeBody_new (rows cols : Nat) (g : Grid) (i j : Nat)
    (l : List (Nat × Nat)) (hnd : l.Nodup) (st : StepState) (hg : st.grid = g)
    (hnew : ∀ q ∈ l, st.new q.1 q.2 = g q.1 q.2) :
    (l.foldl (lifeBody rows cols) st).new i j =
      if (i, j) ∈ l then
        (if g i j = 1 ∧ (LifeModel.total rows cols g i j < 2 ∨
             3 < LifeModel.total rows cols g i j) then 0
         else if g i j = 0 ∧ LifeModel.total rows cols g i j = 3 then 1
         else g i j)
      else st.new i j := by
  induction l generalizing st with
  | nil => simp
  | cons q t ih =>
    obtain ⟨hq, hnd'⟩ := List.nodup_cons.mp hnd
    have hgq : (lifeBody rows cols st q).grid = g := by
      rw [lifeBody]; split_ifs <;> exact hg
    have hnew' : ∀ p ∈ t, (lifeBody rows cols st q).new p.1 p.2 = g p.1 p.2 := by
      intro p hp
      have hpq : ¬(p.1 = q.1 ∧ p.2 = q.2) := by
        intro hc
        exact hq (Prod.ext_iff.mpr ⟨hc.1, hc.2⟩ ▸ hp)
      have hmem := hnew p (List.mem_cons_of_mem q hp)
      simp only [lifeBody]
      split_ifs
      · show writeCell st.new q.1 q.2 0 p.1 p.2 = g p.1 p.2
        rw [writeCell, if_neg hpq]; exact hmem
      · show writeCell st.new q.1 q.2 1 p.1 p.2 = g p.1 p.2
        rw [writeCell, if_neg hpq]; exact hmem
      · exact hmem
    rw [List.foldl_cons, ih hnd' _ hgq hnew']
    by_cases hmem : (i, j) ∈ t
    · rw [if_pos hmem, if_pos (List.mem_cons_of_mem q hmem)]
    · rw [if_neg hmem]
      by_cases hijq : (i, j) = q
      · subst hijq
        rw [if_pos (List.mem_cons_self (i, j) t)]
        have hst := hnew (i, j) (List.mem_cons_self (i, j) t)
        simp only [lifeBody, hg]
        split_ifs
        · simp [writeCell]
        · simp [writeCell]
        · exact hst
      · rw [if_neg (fun hc => (List.mem_cons.mp hc).elim hijq hmem)]
        have hpq : ¬(i = q.1 ∧ j = q.2) := by
          intro hc
          exact hijq (Prod.ext_iff.mpr ⟨hc.1, hc.2⟩)
        simp only [lifeBody]
        split_ifs
        · show writeCell st.new q.1 q.2 0 i j = st.new i j
          rw [writeCell, if_neg hpq]
        · show writeCell st.new q.1 q.2 1 i j = st.new i j
          rw [writeCell, if_neg hpq]
        · rfl

lemma foldl_fireBody_new (rows cols : Nat) (pg pl : ℚ) (ug ul : Nat → Nat → ℚ)
    (g : Grid) (i j : Nat) (l : List (Nat × Nat)) (hnd : l.Nodup)
    (st : StepState) (hg : st.grid = g)
    (hnew : ∀ q ∈ l, st.new q.1 q.2 = g q.1 q.2) :
    (l.foldl (fireBody rows cols pg pl ug ul) st).new i j =
      if (i, j) ∈ l then
        (if g i j = 2 then 0
         else if g i j = 1 then
           if FireModel.windowAnyFire rows cols g i j ∨ ul i j < pl then 2
           else g i j
         else if g i j = 0 ∧ ug i j < pg then 1
         else g i j)
      else st.new i j := by
  induction l generalizing st with
  | nil => simp
  | cons q t ih =>
    obtain ⟨hq, hnd'⟩ := List.nodup_cons.mp hnd
    have hgq : (fireBody rows cols pg pl ug ul st q).grid = g := by
      rw [fireBody]; split_ifs <;> exact hg
    have hnew' : ∀ p ∈ t,
        (fireBody rows cols pg pl ug ul st q).new p.1 p.2 = g p.1 p.2 := by
      intro p hp
      have hpq : ¬(p.1 = q.1 ∧ p.2 = q.2) := by
        intro hc
        exact hq (Prod.ext_iff.mpr ⟨hc.1, hc.2⟩ ▸ hp)
      have hmem := hnew p (List.mem_cons_of_mem q hp)
      simp only [fireBody]
      split_ifs <;>
        first
          | exact hmem
          | (show writeCell st.new q.1 q.2 _ p.1 p.2 = g p.1 p.2
             rw [writeCell, if_neg hpq]
             exact hmem)
    rw [List.foldl_cons, ih hnd' _ hgq hnew']
    by_cases hmem : (i, j) ∈ t
    · rw [if_pos hmem, if_pos (List.mem_cons_of_mem q hmem)]
    · rw [if_neg hmem]
      by_cases hijq : (i, j) = q
      · subst hijq
        rw [if_pos (List.mem_cons_self (i, j) t)]
        have hst := hnew (i, j) (List.mem_cons_self (i, j) t)
        simp only [fireBody, hg]
        split_ifs <;>
          first
            | exact hst
            | simp [writeCell]
      · rw [if_neg (fun hc => (List.mem_cons.mp hc).elim hijq hmem)]
        have hpq : ¬(i = q.1 ∧ j = q.2) := by
          intro hc
          exact hijq (Prod.ext_iff.mpr ⟨hc.1, hc.2⟩)
        simp only [fireBody]
        split_ifs <;>
          first
            | rfl
            | (show writeCell st.new q.1 q.2 _ i j = st.new i j
               rw [writeCell, if_neg hpq])

/-- C10: both step functions of src/models.py return a freshly built
grid (`new`, started as `grid.copy()` and filled by the loop) whose
content is exactly the functional step, and every cell of the input
`grid` is unchanged after the run — the loops assign only `new`. -/
theorem step_leaves_input_grid_unchanged (rows cols : Nat) (pg pl : ℚ)
    (ug ul : Nat → Nat → ℚ) (g : Grid) (i j : Nat) :
    (lifeStepImp rows cols g).grid i j = g i j ∧
    (fireStepImp rows cols pg pl ug ul g).grid i j = g i j ∧
    (lifeStepImp rows cols g).new i j = LifeModel.step rows cols g i j ∧
    (fireStepImp rows cols pg pl ug ul g).new i j =
      FireModel.step rows cols pg pl ug ul g i j := by
  refine ⟨?_, ?_, ?_, ?_⟩
  · rw [lifeStepImp, foldl_lifeBody_grid]
  · rw [fireStepImp, foldl_fireBody_grid]
  · rw [lifeStepImp,
      foldl_lifeBody_new rows cols g i j _ (indexList_nodup rows cols) ⟨g, g⟩ rfl
        (fun q _ => rfl), LifeModel.step]
    by_cases hij : i < rows ∧ j < cols
    · rw [if_pos ((mem_indexList rows cols i j).mpr hij), if_pos hij]
    · rw [if_neg (fun hc => hij ((mem_indexList rows cols i j).mp hc)), if_neg hij]
  · rw [fireStepImp,
      foldl_fireBody_new rows cols pg pl ug ul g i j _ (indexList_nodup rows cols)
        ⟨g, g⟩ rfl (fun q _ => rfl), FireModel.step]
    by_cases hij : i < rows ∧ j < cols
    · rw [if_pos ((mem_indexList rows cols i j).mpr hij), if_pos hij]
    · rw [if_neg (fun hc => hij ((mem_indexList rows cols i j).mp hc)), if_neg hij]

/-! ## C3: the RLE round trip -/

lemma digitChar_isDigit (d : Nat) : (digitChar d).isDigit = true := by
  unfold digitChar
  split <;> decide

lemma digitChar_toNat (d : Nat) (h : d < 10) : (digitChar d).toNat - 48 = d := by
  interval_cases d <;> rfl

lemma isDigit_ne (ch : Char) (h : ch.isDigit = true) :
    ch ≠ ';' ∧ ch ≠ ':' ∧ ch ≠ '-' := by
  refine ⟨fun hc => ?_, fun hc => ?_, fun hc => ?_⟩ <;>
    (subst hc; exact absurd h (by decide))

lemma natCharsGo_all_digits (fuel : Nat) :
    ∀ n, ∀ ch ∈ natCharsGo fuel n, ch.isDigit = true := by
  induction fuel with
  | zero =>
    intro n ch hch
    simp [natCharsGo] at hch
  | succ k ih =>
    intro n ch hch
    match n with
    | 0 => simp [natCharsGo] at hch
    | m + 1 =>
      rw [natCharsGo] at hch
      rcases List.mem_append.mp hch with h | h
      · exact ih _ ch h
      · rw [List.mem_singleton] at h
        rw [h]
        exact digitChar_isDigit _

lemma natCharsGo_ne_nil (k m : Nat) : natCharsGo (k + 1) (m + 1) ≠ [] := by
  rw [natCharsGo]
  simp

lemma natCharsGo_parse (fuel : Nat) : ∀ n ≤ fuel, ∀ a : Nat,
    (natCharsGo fuel n).foldl (fun a ch => a * 10 + (ch.toNat - 48)) a
      = a * 10 ^ (natCharsGo fuel n).length + n := by
  induction fuel with
  | zero =>
    intro n hn a
    interval_cases n
    simp [natCharsGo]
  | succ k ih =>
    intro n hn a
    match n with
    | 0 => simp [natCharsGo]
    | m + 1 =>
      rw [natCharsGo, List.foldl_append, List.foldl_cons, List.foldl_nil,
        ih ((m + 1) / 10) (by omega) a,
        digitChar_toNat _ (Nat.mod_lt _ (by norm_num)),
        List.length_append, List.length_singleton]
      have hmod := Nat.div_add_mod (m + 1) 10
      calc (a * 10 ^ (natCharsGo k ((m + 1) / 10)).length + (m + 1) / 10) * 10
              + (m + 1) % 10
          = a * 10 ^ ((natCharsGo k ((m + 1) / 10)).length + 1)
              + (10 * ((m + 1) / 10) + (m + 1) % 10) := by ring
        _ = a * 10 ^ ((natCharsGo k ((m + 1) / 10)).length + 1) + (m + 1) := by
              rw [hmod]

lemma natToChars_all_digits (n : Nat) :
    ∀ ch ∈ natToChars n, ch.isDigit = true := by
  rw [natToChars]
  split_ifs
  · intro ch hch
    rw [List.mem_singleton] at hch
    rw [hch]
    decide
  · exact natCharsGo_all_digits n n

lemma natToChars_ne_nil (n : Nat) : natToChars n ≠ [] := by
  rw [natToChars]
  split_ifs with h
  · simp
  · obtain ⟨m, rfl⟩ : ∃ m, n = m + 1 := ⟨n - 1, by omega⟩
    exact natCharsGo_ne_nil m m

lemma parseNat_natToChars (n : Nat) : parseNat (natToChars n) = some n := by
  rw [parseNat, if_pos ⟨natToChars_ne_nil n, List.all_eq_true.mpr
    (fun ch hch => natToChars_all_digits n ch hch)⟩]
  rw [natToChars]
  split_ifs with h
  · subst h
    rfl
  · obtain ⟨m, rfl⟩ : ∃ m, n = m + 1 := ⟨n - 1, by omega⟩
    rw [natCharsGo_parse (m + 1) (m + 1) (Nat.le_refl _) 0]
    simp

lemma natToChars_head_ne_minus (n : Nat) :
    (natToChars n).head? ≠ some '-' := by
  intro hc
  have hmem : '-' ∈ natToChars n := List.mem_of_mem_head? hc
  exact absurd (natToChars_all_digits n '-' hmem) (by decide)

lemma parseInt_intToChars (v : ℤ) : parseInt (intToChars v) = some v := by
  rw [intToChars]
  split_ifs with hv
  · rw [parseInt]
    rw [List.head?_cons, if_pos rfl, List.tail_cons, parseNat_natToChars]
    rw [Option.map_some']
    congr 1
    rw [Int.ofNat_eq_natCast]
    omega
  · rw [parseInt, if_neg (natToChars_head_ne_minus _), parseNat_natToChars]
    rw [Option.map_some']
    congr 1
    rw [Int.ofNat_eq_natCast]
    omega

lemma intToChars_all_ne (v : ℤ) :
    ∀ ch ∈ intToChars v, ch ≠ ';' ∧ ch ≠ ':' := by
  rw [intToChars]
  split_ifs
  · intro ch hch
    rcases List.mem_cons.mp hch with rfl | h
    · exact ⟨by decide, by decide⟩
    · have hd := natToChars_all_digits _ ch h
      exact ⟨(isDigit_ne ch hd).1, (isDigit_ne ch hd).2.1⟩
  · intro ch hch
    have hd := natToChars_all_digits _ ch hch
    exact ⟨(isDigit_ne ch hd).1, (isDigit_ne ch hd).2.1⟩

lemma runToken_no_semi (t : ℤ × ℕ) : ∀ ch ∈ runToken t, ch ≠ ';' := by
  intro ch hch
  rw [runToken] at hch
  rcases List.mem_append.mp hch with h | h
  · exact (intToChars_all_ne t.1 ch h).1
  · rcases List.mem_cons.mp h with rfl | h2
    · decide
    · have hd := natToChars_all_digits _ ch h2
      exact (isDigit_ne ch hd).1

lemma runToken_ne_nil (t : ℤ × ℕ) : runToken t ≠ [] := by
  rw [runToken]
  simp

lemma parseToken_runToken (t : ℤ × ℕ) : parseToken (runToken t) = some t := by
  have hsplit : (runToken t).splitOn ':' = [intToChars t.1, natToChars t.2] := by
    have heq : runToken t = [':'].intercalate [intToChars t.1, natToChars t.2] := by
      rw [runToken]
      simp [List.intercalate]
    rw [heq]
    refine List.splitOn_intercalate _ ':' ?_ (by simp)
    intro l hl
    rcases List.mem_cons.mp hl with rfl | hl2
    · intro hc
      exact (intToChars_all_ne t.1 ':' hc).2 rfl
    · rw [List.mem_singleton] at hl2
      subst hl2
      intro hc
      exact absurd (natToChars_all_digits _ ':' hc) (by decide)
  rw [parseToken, hsplit]
  simp [parseInt_intToChars, parseNat_natToChars]

lemma expand_rleRunsGo (xs : List ℤ) : ∀ (last : ℤ) (count : ℕ),
    (rleRunsGo xs last count).flatMap (fun t => List.replicate t.2 t.1)
      = List.replicate count last ++ xs := by
  induction xs with
  | nil =>
    intro last count
    simp [rleRunsGo]
  | cons v vs ih =>
    intro last count
    rw [rleRunsGo]
    split_ifs with h
    · rw [ih]
      subst h
      rw [List.replicate_succ', List.append_assoc, List.singleton_append]
    · rw [List.flatMap_cons, ih]
      simp

lemma expand_rleRuns (l : List ℤ) :
    (rleRuns l).flatMap (fun t => List.replicate t.2 t.1) = l := by
  match l with
  | [] => rfl
  | x :: xs =>
    rw [rleRuns, expand_rleRunsGo]
    simp

lemma rleRunsGo_ne_nil (xs : List ℤ) : ∀ (last : ℤ) (count : ℕ),
    rleRunsGo xs last count ≠ [] := by
  induction xs with
  | nil =>
    intro last count
    simp [rleRunsGo]
  | cons v vs ih =>
    intro last count
    rw [rleRunsGo]
    split_ifs
    · exact ih _ _
    · simp

lemma mapM_map_eq_some {α β : Type} (f : β → Option α) (g : α → β)
    (l : List α) (h : ∀ x ∈ l, f (g x) = some x) :
    (l.map g).mapM f = some l := by
  induction l with
  | nil => rfl
  | cons x xs ih =>
    rw [List.map_cons, List.mapM_cons, h x (List.mem_cons_self x xs),
      ih (fun y hy => h y (List.mem_cons_of_mem x hy))]
    rfl

lemma chunkRows_flatten (c : Nat) (g : List (List ℤ))
    (hc : ∀ row ∈ g, row.length = c) :
    chunkRows c g.length g.flatten = g := by
  induction g with
  | nil => rfl
  | cons row rest ih =>
    rw [List.length_cons, List.flatten_cons, chunkRows]
    have hrow : row.length = c := hc row (List.mem_cons_self _ _)
    have ht : (row ++ rest.flatten).take c = row := by
      rw [← hrow]
      exact List.take_left _ _
    have hd : (row ++ rest.flatten).drop c = rest.flatten := by
      rw [← hrow]
      exact List.drop_left _ _
    rw [ht, hd, ih (fun q hq => hc q (List.mem_cons_of_mem row hq))]

lemma flatten_length (c : Nat) (g : List (List ℤ))
    (hc : ∀ row ∈ g, row.length = c) :
    g.flatten.length = g.length * c := by
  induction g with
  | nil => simp
  | cons row rest ih =>
    rw [List.flatten_cons, List.length_append, List.length_cons,
      hc row (List.mem_cons_self _ _),
      ih (fun q hq => hc q (List.mem_cons_of_mem row hq))]
    ring

/-- C3: for every valid grid `g` of shape `(r, c)`,
`rle_decode (rle_encode g) (r, c) = g`; encoding an empty grid gives
the empty string; decoding the empty string gives the all-zero grid of
the requested shape. -/
theorem rle_decode_encode_round_trip (g : List (List ℤ)) (r c : Nat)
    (hr : g.length = r) (hc : ∀ row ∈ g, row.length = c) :
    rle_decode (rle_encode g) r c = some g ∧
    (g.flatten = [] → rle_encode g = []) ∧
    rle_decode [] r c = some (List.replicate r (List.replicate c (0 : ℤ))) := by
  refine ⟨?_, fun h => by rw [rle_encode, if_pos h],
    by rw [rle_decode, if_pos rfl]⟩
  by_cases hflat : g.flatten = []
  · rw [rle_encode, if_pos hflat, rle_decode, if_pos rfl]
    refine congrArg some ?_
    have hlen := flatten_length c g hc
    rw [hflat] at hlen
    simp only [List.length_nil] at hlen
    rcases Nat.mul_eq_zero.mp hlen.symm with h0 | h0
    · have hg : g = [] := List.length_eq_zero.mp h0
      subst hg
      have hr0 : r = 0 := by simpa using hr.symm
      subst hr0
      rfl
    · subst h0
      symm
      rw [← hr]
      exact List.eq_replicate_length.mpr
        (fun row hrow => List.length_eq_zero.mp (hc row hrow))
  · have hruns_ne : rleRuns g.flatten ≠ [] := by
      cases hfl : g.flatten with
      | nil => exact absurd hfl hflat
      | cons x xs =>
        rw [rleRuns]
        exact rleRunsGo_ne_nil xs x 1
    have htok_ne : (rleRuns g.flatten).map runToken ≠ [] := by
      intro hcon
      exact hruns_ne (List.map_eq_nil_iff.mp hcon)
    have hnosemi : ∀ l ∈ (rleRuns g.flatten).map runToken, ';' ∉ l := by
      intro l hl hsemi
      obtain ⟨t, _, rfl⟩ := List.mem_map.mp hl
      exact runToken_no_semi t ';' hsemi rfl
    have hsplit := List.splitOn_intercalate _ ';' hnosemi htok_ne
    have hs : [';'].intercalate ((rleRuns g.flatten).map runToken) ≠ [] := by
      intro hcon
      rw [hcon, List.splitOn_nil] at hsplit
      have hmem : ([] : List Char) ∈ (rleRuns g.flatten).map runToken := by
        rw [← hsplit]
        simp
      obtain ⟨t, _, ht⟩ := List.mem_map.mp hmem
      exact runToken_ne_nil t ht
    rw [rle_encode, if_neg hflat, rle_decode, if_neg hs, hsplit,
      mapM_map_eq_some parseToken runToken _ (fun t _ => parseToken_runToken t)]
    rw [Option.bind_eq_bind', Option.some_bind']
    rw [expand_rleRuns]
    have hfl_len : g.flatten.length = r * c := by
      rw [flatten_length c g hc, hr]
    rw [if_pos hfl_len, ← hr, chunkRows_flatten c g hc]

/-- Witness for C3: the round-trip theorem applied to the spec §8
scenario grid `[[0,0],[1,1]]` with shape (2, 2). -/
theorem rle_decode_encode_round_trip_witness :
    (([[0,0],[1,1]] : List (List ℤ)).length = 2 ∧
      ∀ row ∈ ([[0,0],[1,1]] : List (List ℤ)), row.length = 2) ∧
    (rle_decode (rle_encode [[0,0],[1,1]]) 2 2 = some [[0,0],[1,1]] ∧
    (([[0,0],[1,1]] : List (List ℤ)).flatten = [] →
      rle_encode [[0,0],[1,1]] = []) ∧
    rle_decode [] 2 2 = some (List.replicate 2 (List.replicate 2 (0 : ℤ)))) := by
  constructor
  · exact ⟨rfl, by decide⟩
  · exact rle_decode_encode_round_trip [[0,0],[1,1]] 2 2 rfl (by decide)
